import Mathlib

/-!
Shallow embedding of `src/main.py` (PyGetVerse), a desktop utility that
parses a chapter:verse reference, composes scripture text from a per-chapter
verse store, copies it to the clipboard and injects a paste on focus loss.

Strings are modelled as `List Char`.  Python `int` values are modelled as
`Int`.  Python exceptions are modelled with `Except`.
-/

namespace PyGetVerse

/-- Decidable equality for `Except`, used to evaluate the model on
concrete inputs. -/
instance {ε α : Type} [DecidableEq ε] [DecidableEq α] : DecidableEq (Except ε α) := fun x y =>
  match x, y with
  | .ok a, .ok b =>
    if h : a = b then .isTrue (by rw [h])
    else .isFalse (by intro hc; injection hc; contradiction)
  | .error a, .error b =>
    if h : a = b then .isTrue (by rw [h])
    else .isFalse (by intro hc; injection hc; contradiction)
  | .ok _, .error _ => .isFalse (by intro hc; exact Except.noConfusion hc)
  | .error _, .ok _ => .isFalse (by intro hc; exact Except.noConfusion hc)

/-- Characters treated as whitespace by Python `str.strip()` (ASCII part). -/
def pyIsSpace (c : Char) : Bool :=
  c = ' ' || c = '\t' || c = '\n' || c = '\r' || c = '\x0b' || c = '\x0c'

/-- Python `str.strip()`: drop leading and trailing whitespace. -/
def pyStrip (s : List Char) : List Char :=
  ((s.dropWhile pyIsSpace).reverse.dropWhile pyIsSpace).reverse

/-- Abbreviation turning a Lean string literal into the character-list model. -/
def strL (s : String) : List Char := s.data

/-- Split a list at the first occurrence of `sep`, like Python
`s.split(sep, 1)` when `sep` occurs; `none` when it does not occur. -/
def splitFirst (sep : Char) : List Char → Option (List Char × List Char)
  | [] => none
  | c :: cs =>
    if c = sep then some ([], cs)
    else (splitFirst sep cs).map (fun p => (c :: p.1, p.2))

/-- Numeric value of a digit string, most significant first. -/
def digitsToNat (ds : List Char) : Nat :=
  ds.foldl (fun n c => 10 * n + (c.toNat - 48)) 0

/-- Sign-and-digits part of the Python `int(str)` model, applied after
surrounding whitespace is discarded. -/
def pyIntCore : List Char → Option Int
  | [] => none
  | c :: rest =>
    if c = '+' then
      if rest ≠ [] && rest.all Char.isDigit then some ((digitsToNat rest : Nat) : Int) else none
    else if c = '-' then
      if rest ≠ [] && rest.all Char.isDigit then some (-((digitsToNat rest : Nat) : Int)) else none
    else
      if (c :: rest).all Char.isDigit then some ((digitsToNat (c :: rest) : Nat) : Int) else none

/-- Model of Python `int(str)`: optional surrounding whitespace, an optional
sign, then one or more decimal digits.  (PEP 515 underscore grouping is not
modelled.)  Returns `none` where Python raises `ValueError`. -/
def pyInt? (s0 : List Char) : Option Int := pyIntCore (pyStrip s0)

/-- Decimal digit character (for rendering numbers, as Python f-strings do). -/
def digitChar (n : Nat) : Char :=
  if n = 0 then '0' else if n = 1 then '1' else if n = 2 then '2'
  else if n = 3 then '3' else if n = 4 then '4' else if n = 5 then '5'
  else if n = 6 then '6' else if n = 7 then '7' else if n = 8 then '8' else '9'

/-- Fuelled decimal rendering of a natural number (fuel keeps it structural). -/
def natDigitsAux : Nat → Nat → List Char
  | 0, _ => []
  | fuel + 1, n =>
    if n < 10 then [digitChar n]
    else natDigitsAux fuel (n / 10) ++ [digitChar (n % 10)]

/-- Decimal rendering of a natural number, most significant digit first. -/
def natDigits (n : Nat) : List Char := natDigitsAux (n + 1) n

/-- Decimal rendering of an integer, as Python `str(int)` / f-strings do. -/
def intChars (i : Int) : List Char :=
  if i < 0 then '-' :: natDigits i.natAbs else natDigits i.toNat

/-- Errors of `_parse_reference` (all `ValueError` in Python; the spec
taxonomy splits them into format errors, raised by failed `int()` conversion
or a malformed shape, and range errors, raised by the two explicit range
checks).  The human-readable messages are not modelled. -/
inductive ParseError where
  | formatError
  | rangeError
deriving DecidableEq, Repr

/-- The separator replacement `s.replace(".", ":")` applied per
character. -/
def sepRepl (ch : Char) : Char := if ch = '.' then ':' else ch

/-- The separator normalisation of `_parse_reference`: remove spaces
(`replace(" ", "")`) and turn every `.` into `:`. -/
def normalizeRef (ref : List Char) : List Char :=
  (ref.filter (fun ch => ch != ' ')).map sepRepl

/-- The right side of a range (lines 268-274 of `src/main.py`): an optional
chapter and a verse, both converted with `int()`. -/
def parseRight (right : List Char) : Except ParseError (Option Int × Int) :=
  match splitFirst ':' right with
  | some (rc, rv) =>
    match pyInt? rc, pyInt? rv with
    | some rCh, some rVs => .ok (some rCh, rVs)
    | _, _ => .error .formatError
  | none =>
    match pyInt? right with
    | some rVs => .ok (none, rVs)
    | none => .error .formatError

/-- Core of `_parse_reference` after space removal and separator
normalisation (lines 266-294 of `src/main.py`). -/
def parseNormalized (s : List Char) : Except ParseError (Int × Int × Int) :=
  match splitFirst '-' s with
  | some (left, right) =>
    match parseRight right with
    | .error e => .error e
    | .ok (rChOpt, rVs) =>
      match splitFirst ':' left with
      | none => .error .formatError
      | some (lc, lv) =>
        match pyInt? lc, pyInt? lv with
        | some lCh, some lVs =>
          let rCh := rChOpt.getD lCh
          if rCh ≠ lCh then .error .rangeError
          else if rVs < lVs then .error .rangeError
          else .ok (lCh, lVs, rVs)
        | _, _ => .error .formatError
  | none =>
    match splitFirst ':' s with
    | none => .error .formatError
    | some (cs, vs) =>
      match pyInt? cs, pyInt? vs with
      | some ch, some v => .ok (ch, v, v)
      | _, _ => .error .formatError

/-- `_parse_reference` (lines 256-294): returns `(chapter, startVerse,
endVerse)` or fails. -/
def parseReference (ref : List Char) : Except ParseError (Int × Int × Int) :=
  let s1 := ref.filter (fun ch => ch != ' ')
  if s1 = [] then .error .formatError
  else parseNormalized (s1.map sepRepl)

/-- The canonical text of a single reference `"c:v"` with decimal
numerals. -/
def singleRefStr (c v : Nat) : List Char := natDigits c ++ ':' :: natDigits v

/-- The canonical text of a range reference `"c:v1-v2"` whose right side
omits the chapter. -/
def rangeRefStr (c v1 v2 : Nat) : List Char :=
  singleRefStr c v1 ++ '-' :: natDigits v2

/-- The canonical text of a range reference `"c:v1-c2:v2"` with an explicit
chapter on the right side. -/
def rangeRefStr2 (c v1 c2 v2 : Nat) : List Char :=
  singleRefStr c v1 ++ '-' :: singleRefStr c2 v2

/-! ## Verse store and composer (`_get_verse_text`, `_build_paste_text`) -/

/-- One JSON record of a chapter data file.  `Option` models absent keys
(`dict.get` returning `None`); `ayah : Option Int` is `some` exactly when the
key is present with an integer value (the `isinstance(..., int)` check). -/
structure VerseItem where
  verse_key : Option (List Char)
  sura : Option Int
  ayah : Option Int
  arabic : Option (List Char)
  tamil_pj : Option (List Char)
deriving DecidableEq, Repr

/-- Result of locating and loading a chapter data file: the file may be
missing (`FileNotFoundError`), unreadable or malformed (any other exception
while opening or JSON-decoding, caught generically by `_on_submit`), or a
list of records. -/
inductive StoreResult where
  | missing
  | corrupt
  | ok (data : List VerseItem)
deriving DecidableEq, Repr

/-- The verse store: chapter number to the outcome of loading
`VERSES_DIR / "chapter.json"`. -/
def VerseStore := Int → StoreResult

/-- Errors of the composition step as handled by `_on_submit`:
`FileNotFoundError`, `KeyError` (with the missing chapter:verse), and the
generic `except Exception` case. -/
inductive ComposeError where
  | chapterNotFound
  | verseNotFound (chapter verse : Int)
  | otherError
deriving DecidableEq, Repr

/-- Python `x or ""` on an optional string field. -/
def orEmpty : Option (List Char) → List Char
  | none => []
  | some s => s

/-- The lookup key `f"{chapter}:{verse}"`. -/
def needle (chapter verse : Int) : List Char :=
  intChars chapter ++ ':' :: intChars verse

/-- First record whose `verse_key` equals the needle (the linear scan of
`_get_verse_text`). -/
def findVerseKey (data : List VerseItem) (key : List Char) : Option VerseItem :=
  data.find? (fun item => decide (item.verse_key = some key))

/-- One step of building the verse dictionary of `_build_paste_text`: a
record with `sura == chapter` and an integer `ayah` is stored under its
`ayah`, overwriting any earlier record with the same `ayah`. -/
def verseMapUpd (chapter : Int) (m : Int → Option VerseItem) (item : VerseItem) :
    Int → Option VerseItem :=
  match item.sura, item.ayah with
  | some sc, some a =>
    if sc = chapter then fun v => if v = a then some item else m v else m
  | _, _ => m

/-- The dictionary built by `_build_paste_text` from records with
`sura == chapter` and an integer `ayah`; a later record overwrites an
earlier one with the same `ayah`. -/
def verseMap (chapter : Int) (data : List VerseItem) : Int → Option VerseItem :=
  data.foldl (verseMapUpd chapter) (fun _ => none)

/-- The inclusive verse range `range(start_verse, end_verse + 1)`. -/
def verseRange (startVerse endVerse : Int) : List Int :=
  (List.range (endVerse - startVerse + 1).toNat).map (fun i => startVerse + i)

/-- The line group of one verse: include the stripped `arabic` field iff
requested and non-empty, likewise `tamil_pj`, join with a newline, strip. -/
def lineGroup (item : VerseItem) (useArabic useTamil : Bool) : List Char :=
  let arabic := pyStrip (orEmpty item.arabic)
  let tamil := pyStrip (orEmpty item.tamil_pj)
  let lines :=
    (if useArabic && !arabic.isEmpty then [arabic] else []) ++
    (if useTamil && !tamil.isEmpty then [tamil] else [])
  pyStrip (List.intercalate (strL "\n") lines)

/-- Citation suffix of the single-verse path:
`f" (அல்குர்ஆன்: {chapter}:{verse})"`. -/
def citationSingle (chapter verse : Int) : List Char :=
  strL " (அல்குர்ஆன்: " ++ needle chapter verse ++ [')']

/-- Citation suffix of the range path:
`f" (அல்குர்ஆன்: {chapter}:{start_verse}-{end_verse})"`. -/
def citationRange (chapter startVerse endVerse : Int) : List Char :=
  strL " (அல்குர்ஆன்: " ++ intChars chapter ++ ':' :: intChars startVerse ++
    '-' :: intChars endVerse ++ [')']

/-- The citation suffix the code appends for a reference, per path taken. -/
def citationSuffix (chapter startVerse endVerse : Int) : List Char :=
  if startVerse = endVerse then citationSingle chapter startVerse
  else citationRange chapter startVerse endVerse

/-- `_get_verse_text` (lines 181-215): single-verse composition. -/
def getVerseText (store : VerseStore) (chapter verse : Int)
    (useArabic useTamil : Bool) : Except ComposeError (List Char) :=
  match store chapter with
  | .missing => .error .chapterNotFound
  | .corrupt => .error .otherError
  | .ok data =>
    match findVerseKey data (needle chapter verse) with
    | none => .error (.verseNotFound chapter verse)
    | some item =>
      let body := lineGroup item useArabic useTamil
      if !body.isEmpty then .ok (body ++ citationSingle chapter verse)
      else .ok (citationSingle chapter verse)

/-- The loop of `_build_paste_text` (lines 234-248): walk the inclusive
range in ascending order, fail on the first verse absent from the map,
collect the non-empty line groups. -/
def collectSegments (chapter : Int) (m : Int → Option VerseItem)
    (useArabic useTamil : Bool) : List Int → Except ComposeError (List (List Char))
  | [] => .ok []
  | v :: vs =>
    match m v with
    | none => .error (.verseNotFound chapter v)
    | some item =>
      let body := lineGroup item useArabic useTamil
      match collectSegments chapter m useArabic useTamil vs with
      | .error e => .error e
      | .ok rest => .ok (if !body.isEmpty then body :: rest else rest)

/-- The multi-verse branch of `_build_paste_text` (lines 222-254), stated
for an arbitrary range (the code reaches it only with
`start_verse ≠ end_verse`). -/
def buildRangeText (store : VerseStore) (chapter startVerse endVerse : Int)
    (useArabic useTamil : Bool) : Except ComposeError (List Char) :=
  match store chapter with
  | .missing => .error .chapterNotFound
  | .corrupt => .error .otherError
  | .ok data =>
    match collectSegments chapter (verseMap chapter data) useArabic useTamil
        (verseRange startVerse endVerse) with
    | .error e => .error e
    | .ok segments =>
      let content := pyStrip (List.intercalate (strL "\n\n") segments)
      if !content.isEmpty then .ok (content ++ citationRange chapter startVerse endVerse)
      else .ok (citationRange chapter startVerse endVerse)

/-- `_build_paste_text` (lines 217-254): single-verse references go through
`_get_verse_text`, everything else through the range branch. -/
def buildPasteText (store : VerseStore) (chapter startVerse endVerse : Int)
    (useArabic useTamil : Bool) : Except ComposeError (List Char) :=
  if startVerse = endVerse then getVerseText store chapter startVerse useArabic useTamil
  else buildRangeText store chapter startVerse endVerse useArabic useTamil

/-- First verse of a list whose lookup in `m` fails, in list order. -/
def firstMissing (m : Int → Option VerseItem) : List Int → Option Int
  | [] => none
  | v :: vs =>
    match m v with
    | none => some v
    | some _ => firstMissing m vs

/-- The first missing verse the composer encounters for a reference, per
the lookup the code actually performs: the `verse_key` scan on the
single-verse path, the `sura`/`ayah` dictionary on the range path. -/
def firstMissingVerse (data : List VerseItem) (chapter startVerse endVerse : Int) :
    Option Int :=
  if startVerse = endVerse then
    if (findVerseKey data (needle chapter startVerse)).isNone then some startVerse else none
  else firstMissing (verseMap chapter data) (verseRange startVerse endVerse)

/-- Whether every verse of the reference is found by the lookup the code
performs on the path it takes. -/
def versesAllFound (data : List VerseItem) (chapter startVerse endVerse : Int) : Bool :=
  if startVerse = endVerse then (findVerseKey data (needle chapter startVerse)).isSome
  else (verseRange startVerse endVerse).all (fun v => (verseMap chapter data v).isSome)

/-! ## Application state and event handlers (`QuranPasterApp`) -/

/-- The mutable state touched by `_on_submit` and `_on_focus_out`, together
with the externally observable clipboard and window visibility. -/
structure AppState where
  paste_pending : Bool
  last_text_copied : List Char
  input_var : List Char
  include_arabic : Bool
  include_tamil : Bool
  status_var : List Char
  clipboard : List Char
  hidden : Bool
deriving DecidableEq, Repr

/-- Externally visible side effects, in the order the handlers perform
them. -/
inductive Effect where
  | clipboardWrite (text : List Char)
  | setPending (b : Bool)
  | setStatus (s : List Char)
  | hideWindow
  | injectPaste
  | scheduleExit
deriving DecidableEq, Repr

/-- Status text shown for a parse failure (`str(exc)`; the exact message is
not modelled). -/
def parseErrorStatus : ParseError → List Char
  | .formatError => strL "format error"
  | .rangeError => strL "range error"

/-- Status text for a `KeyError` from composition (lines 133-136). -/
def verseNotFoundStatus (chapter startVerse endVerse : Int) : List Char :=
  if startVerse = endVerse then
    strL "Verse " ++ intChars chapter ++ ':' :: intChars startVerse ++ strL " not found"
  else
    strL "One or more verses not found for " ++ intChars chapter ++
      ':' :: intChars startVerse ++ '-' :: intChars endVerse

/-- Status text after a successful copy (lines 158-161). -/
def copiedStatus (chapter startVerse endVerse : Int) : List Char :=
  if startVerse = endVerse then
    strL "Copied " ++ intChars chapter ++ ':' :: intChars startVerse ++
      strL ". Switch to target app..."
  else
    strL "Copied " ++ intChars chapter ++ ':' :: intChars startVerse ++
      '-' :: intChars endVerse ++ strL ". Switch to target app..."

/-- `_on_submit` (lines 108-162).  `clipboardOk` models whether the
clipboard write (clear, append, update) succeeds; on failure the handler
returns before recording `last_text_copied` or arming the paste. -/
def onSubmit (store : VerseStore) (clipboardOk : Bool) (st : AppState) :
    AppState × List Effect :=
  let ref := pyStrip st.input_var
  match parseReference ref with
  | .error e =>
    ({ st with status_var := parseErrorStatus e }, [.setStatus (parseErrorStatus e)])
  | .ok (chapter, startVerse, endVerse) =>
    if !st.include_arabic && !st.include_tamil then
      ({ st with status_var := strL "Select at least one: Arabic or Tamil" },
       [.setStatus (strL "Select at least one: Arabic or Tamil")])
    else
      match buildPasteText store chapter startVerse endVerse
          st.include_arabic st.include_tamil with
      | .error .chapterNotFound =>
        let msg := strL "No data for chapter " ++ intChars chapter
        ({ st with status_var := msg }, [.setStatus msg])
      | .error (.verseNotFound _ _) =>
        let msg := verseNotFoundStatus chapter startVerse endVerse
        ({ st with status_var := msg }, [.setStatus msg])
      | .error .otherError =>
        ({ st with status_var := strL "Error" }, [.setStatus (strL "Error")])
      | .ok text =>
        if text = [] then
          ({ st with status_var := strL "Empty verse text" },
           [.setStatus (strL "Empty verse text")])
        else if clipboardOk then
          let msg := copiedStatus chapter startVerse endVerse
          ({ st with clipboard := text, last_text_copied := text,
                     paste_pending := true, status_var := msg, hidden := true },
           [.clipboardWrite text, .setPending true, .setStatus msg, .hideWindow])
        else
          ({ st with status_var := strL "Clipboard error" },
           [.setStatus (strL "Clipboard error")])

/-- `_on_focus_out` (lines 93-106).  `injectOk` models whether
`pyautogui.hotkey` succeeds; the `finally` block clears `paste_pending`
either way. -/
def onFocusOut (injectOk : Bool) (st : AppState) : AppState × List Effect :=
  if !st.paste_pending then (st, [])
  else if injectOk then
    ({ st with paste_pending := false, status_var := strL "Pasted" },
     [.injectPaste, .setStatus (strL "Pasted"), .scheduleExit, .setPending false])
  else
    ({ st with paste_pending := false, status_var := strL "Paste failed" },
     [.injectPaste, .setStatus (strL "Paste failed"), .setPending false])

/-- External events driving the two handlers. -/
inductive Event where
  | submit (store : VerseStore) (clipboardOk : Bool)
  | focusOut (injectOk : Bool)

/-- Dispatch one event to its handler. -/
def step (e : Event) (st : AppState) : AppState × List Effect :=
  match e with
  | .submit store clipboardOk => onSubmit store clipboardOk st
  | .focusOut injectOk => onFocusOut injectOk st

/-- Run a sequence of events, concatenating the emitted effects. -/
def run (st : AppState) : List Event → AppState × List Effect
  | [] => (st, [])
  | e :: es =>
    let p := step e st
    let q := run p.1 es
    (q.1, p.2 ++ q.2)

/-- Number of paste-injection calls in an effect list. -/
def countInject (fx : List Effect) : Nat :=
  fx.countP (fun f => match f with | .injectPaste => true | _ => false)

/-- Number of arming transitions (`paste_pending` set to true) in an effect
list. -/
def countArm (fx : List Effect) : Nat :=
  fx.countP (fun f => match f with | .setPending true => true | _ => false)

/-- Contribution of the `paste_pending` flag to the injection budget. -/
def pendBit (st : AppState) : Nat := if st.paste_pending then 1 else 0

/-- Whether a submission reaches the arming step: the reference parses, at
least one language option is on, composition succeeds with non-empty text,
and the clipboard write succeeds. -/
def submitSucceeds (store : VerseStore) (clipboardOk : Bool) (st : AppState) : Bool :=
  match parseReference (pyStrip st.input_var) with
  | .error _ => false
  | .ok (chapter, startVerse, endVerse) =>
    (st.include_arabic || st.include_tamil) &&
    (match buildPasteText store chapter startVerse endVerse
        st.include_arabic st.include_tamil with
     | .error _ => false
     | .ok text => !text.isEmpty && clipboardOk)


/-! ## Concrete data used to evaluate the model -/

/-- A well-formed verse record for chapter `c`, verse `v`. -/
def itm (c v : Int) (a t : String) : VerseItem :=
  { verse_key := some (needle c v), sura := some c, ayah := some v,
    arabic := some (strL a), tamil_pj := some (strL t) }

/-- Records of the sample chapter 1: verses 1 and 3 (verse 2 is absent). -/
def chapterOneData : List VerseItem := [itm 1 1 "A1" "T1", itm 1 3 "A3" "T3"]

/-- A store with a single chapter 1 whose verse 2 is missing. -/
def store1 : VerseStore := fun c =>
  if c = 1 then .ok chapterOneData else .missing

/-- A record whose `verse_key` names chapter 1 but whose `sura` field says
chapter 2, so the two lookup methods of the composer disagree on it. -/
def mismatchItem : VerseItem :=
  { verse_key := some (strL "1:1"), sura := some 2, ayah := some 1,
    arabic := some (strL "A"), tamil_pj := none }

/-- A store exposing the lookup disagreement of `mismatchItem`. -/
def mismatchStore : VerseStore := fun c =>
  if c = 1 then .ok [mismatchItem] else .missing

/-- A record for chapter 1 verse 1 whose both text fields are present but
blank. -/
def emptyTextItem : VerseItem :=
  { verse_key := some (needle 1 1), sura := some 1, ayah := some 1,
    arabic := some (strL "  "), tamil_pj := some [] }

/-- A store whose only record has blank text fields. -/
def emptyTextStore : VerseStore := fun c =>
  if c = 1 then .ok [emptyTextItem] else .missing

/-- A state about to submit the single reference `"1:1"`. -/
def st0 : AppState :=
  { paste_pending := false, last_text_copied := [], input_var := strL "1:1",
    include_arabic := true, include_tamil := true, status_var := [],
    clipboard := [], hidden := false }

/-- A state about to submit the range reference `"1:1-3"`. -/
def st13 : AppState :=
  { paste_pending := false, last_text_copied := [], input_var := strL "1:1-3",
    include_arabic := true, include_tamil := true, status_var := [],
    clipboard := [], hidden := false }

/-- A state already armed with a previous payload, about to submit a
reference that fails to parse. -/
def stArmedBad : AppState :=
  { paste_pending := true, last_text_copied := strL "old payload",
    input_var := strL "nonsense", include_arabic := true, include_tamil := true,
    status_var := [], clipboard := strL "old payload", hidden := true }

/-! ## Helper lemmas -/

lemma dropWhile_head_not (p : Char → Bool) (l : List Char) :
    l.dropWhile p = [] ∨ ∃ c cs, l.dropWhile p = c :: cs ∧ p c = false := by
  induction l with
  | nil => exact .inl rfl
  | cons c cs ih =>
    cases hpc : p c with
    | true => rw [List.dropWhile_cons_of_pos hpc]; exact ih
    | false => exact .inr ⟨c, cs, List.dropWhile_cons_of_neg (by simp [hpc]), hpc⟩

lemma dropWhile_idem (p : Char → Bool) (l : List Char) :
    (l.dropWhile p).dropWhile p = l.dropWhile p := by
  rcases dropWhile_head_not p l with h | ⟨c, cs, h, hpc⟩
  · rw [h]; rfl
  · rw [h, List.dropWhile_cons_of_neg (by simp [hpc])]

lemma dropWhile_eq_self_of_none {p : Char → Bool} {l : List Char}
    (h : ∀ x ∈ l, p x = false) : l.dropWhile p = l := by
  cases l with
  | nil => rfl
  | cons c cs => exact List.dropWhile_cons_of_neg (by simp [h c (by simp)])

lemma pyStrip_eq_self {l : List Char} (h : ∀ x ∈ l, pyIsSpace x = false) :
    pyStrip l = l := by
  unfold pyStrip
  rw [dropWhile_eq_self_of_none h,
    dropWhile_eq_self_of_none (fun x hx => h x (List.mem_reverse.mp hx)),
    List.reverse_reverse]

lemma mem_pyStrip {x : Char} {l : List Char} (h : x ∈ pyStrip l) : x ∈ l := by
  unfold pyStrip at h
  rw [List.mem_reverse] at h
  have h1 := (List.dropWhile_sublist _).subset h
  rw [List.mem_reverse] at h1
  exact (List.dropWhile_sublist _).subset h1

lemma pyStrip_head_fixed (l : List Char) :
    List.dropWhile pyIsSpace
        ((List.dropWhile pyIsSpace ((List.dropWhile pyIsSpace l).reverse)).reverse) =
      (List.dropWhile pyIsSpace ((List.dropWhile pyIsSpace l).reverse)).reverse := by
  rcases dropWhile_head_not pyIsSpace l with h0 | ⟨h, tA, h0, hph⟩
  · rw [h0]; rfl
  · rw [h0]
    have hph' : ¬ (pyIsSpace h = true) := by simp [hph]
    have hb : ∃ d, List.dropWhile pyIsSpace ((h :: tA).reverse) = d ++ [h] := by
      rw [show (h :: tA).reverse = tA.reverse ++ [h] by simp, List.dropWhile_append]
      by_cases hd : (List.dropWhile pyIsSpace tA.reverse).isEmpty
      · refine ⟨[], ?_⟩
        rw [if_pos hd, List.dropWhile_cons_of_neg hph']
        simp
      · exact ⟨List.dropWhile pyIsSpace tA.reverse, by simp [hd]⟩
    obtain ⟨d, hd⟩ := hb
    rw [hd, show (d ++ [h]).reverse = h :: d.reverse by simp,
      List.dropWhile_cons_of_neg hph']

lemma pyStrip_idem (l : List Char) : pyStrip (pyStrip l) = pyStrip l := by
  unfold pyStrip
  rw [pyStrip_head_fixed, List.reverse_reverse]
  exact pyStrip_head_fixed l

lemma splitFirst_eq_none {sep : Char} {l : List Char} :
    splitFirst sep l = none ↔ sep ∉ l := by
  induction l with
  | nil => simp [splitFirst]
  | cons c cs ih =>
    by_cases h : c = sep
    · subst h; simp [splitFirst]
    · rw [splitFirst, if_neg h]
      simp only [Option.map_eq_none', ih, List.mem_cons]
      constructor
      · intro hn hor
        rcases hor with hor | hor
        · exact h hor.symm
        · exact hn hor
      · intro hn hmem
        exact hn (Or.inr hmem)

lemma splitFirst_eq_some {sep : Char} :
    ∀ {l a b : List Char}, splitFirst sep l = some (a, b) → l = a ++ sep :: b ∧ sep ∉ a := by
  intro l
  induction l with
  | nil => intro a b h; simp [splitFirst] at h
  | cons c cs ih =>
    intro a b h
    rw [splitFirst] at h
    by_cases hc : c = sep
    · rw [if_pos hc] at h
      simp only [Option.some.injEq, Prod.mk.injEq] at h
      obtain ⟨h1, h2⟩ := h
      subst h1; subst h2; subst hc
      simp
    · rw [if_neg hc] at h
      rcases hsp : splitFirst sep cs with _ | ⟨a', b'⟩
      · rw [hsp] at h; simp at h
      · rw [hsp] at h
        simp only [Option.map_some', Option.some.injEq, Prod.mk.injEq] at h
        obtain ⟨h1, h2⟩ := h
        subst h1; subst h2
        obtain ⟨hcs, hna⟩ := ih hsp
        constructor
        · rw [hcs]; rfl
        · intro hm
          rcases List.mem_cons.mp hm with hm | hm
          · exact hc hm.symm
          · exact hna hm

lemma splitFirst_append {sep : Char} :
    ∀ {a : List Char} (b : List Char), sep ∉ a → splitFirst sep (a ++ sep :: b) = some (a, b) := by
  intro a
  induction a with
  | nil => intro b _; simp [splitFirst]
  | cons c cs ih =>
    intro b h
    have hc : ¬(c = sep) := by
      intro hc; subst hc; exact h (List.mem_cons_self c cs)
    rw [List.cons_append, splitFirst, if_neg hc,
      ih b (fun hm => h (List.mem_cons_of_mem _ hm))]
    rfl

lemma splitFirst_not_mem {sep : Char} {l : List Char} (h : sep ∉ l) :
    splitFirst sep l = none :=
  splitFirst_eq_none.mpr h

lemma toNat_digitChar {n : Nat} (h : n < 10) : (digitChar n).toNat = 48 + n := by
  interval_cases n <;> decide

lemma isDigit_digitChar {n : Nat} (h : n < 10) : (digitChar n).isDigit = true := by
  interval_cases n <;> decide

lemma digitsToNat_append (xs : List Char) (c : Char) :
    digitsToNat (xs ++ [c]) = 10 * digitsToNat xs + (c.toNat - 48) := by
  unfold digitsToNat
  rw [List.foldl_append]
  rfl

lemma digitsToNat_single (c : Char) : digitsToNat [c] = c.toNat - 48 := by
  simp [digitsToNat, List.foldl]

lemma natDigitsAux_ne_nil : ∀ {fuel n : Nat}, n < fuel → natDigitsAux fuel n ≠ [] := by
  intro fuel
  induction fuel with
  | zero => intro n h; omega
  | succ f ih =>
    intro n h
    rw [natDigitsAux]
    by_cases h10 : n < 10
    · rw [if_pos h10]; simp
    · rw [if_neg h10]
      exact List.append_ne_nil_of_right_ne_nil _ (by simp)

lemma natDigitsAux_all_digit :
    ∀ {fuel n : Nat}, n < fuel → ∀ c ∈ natDigitsAux fuel n, c.isDigit = true := by
  intro fuel
  induction fuel with
  | zero => intro n h; omega
  | succ f ih =>
    intro n h c hc
    rw [natDigitsAux] at hc
    by_cases h10 : n < 10
    · rw [if_pos h10] at hc
      simp only [List.mem_singleton] at hc
      subst hc
      exact isDigit_digitChar h10
    · rw [if_neg h10] at hc
      rcases List.mem_append.mp hc with hm | hm
      · have hlt : n / 10 < f := by
          have h1 : n / 10 < n := Nat.div_lt_self (by omega) (by omega)
          omega
        exact ih hlt c hm
      · simp only [List.mem_singleton] at hm
        subst hm
        exact isDigit_digitChar (Nat.mod_lt _ (by omega))

lemma digitsToNat_natDigitsAux :
    ∀ {fuel n : Nat}, n < fuel → digitsToNat (natDigitsAux fuel n) = n := by
  intro fuel
  induction fuel with
  | zero => intro n h; omega
  | succ f ih =>
    intro n h
    rw [natDigitsAux]
    by_cases h10 : n < 10
    · rw [if_pos h10, digitsToNat_single, toNat_digitChar h10]
      omega
    · rw [if_neg h10, digitsToNat_append]
      have hlt : n / 10 < f := by
        have h1 : n / 10 < n := Nat.div_lt_self (by omega) (by omega)
        omega
      rw [ih hlt, toNat_digitChar (Nat.mod_lt _ (by omega))]
      omega

lemma digitsToNat_natDigits (n : Nat) : digitsToNat (natDigits n) = n :=
  digitsToNat_natDigitsAux (Nat.lt_succ_self n)

lemma natDigits_ne_nil (n : Nat) : natDigits n ≠ [] :=
  natDigitsAux_ne_nil (Nat.lt_succ_self n)

lemma natDigits_all_digit (n : Nat) : ∀ c ∈ natDigits n, c.isDigit = true :=
  natDigitsAux_all_digit (Nat.lt_succ_self n)

lemma isDigit_ne {c d : Char} (h : c.isDigit = true) (hd : d.isDigit = false) : c ≠ d :=
  fun he => by subst he; simp [h] at hd

lemma isDigit_not_space {c : Char} (h : c.isDigit = true) : pyIsSpace c = false := by
  cases hsp : pyIsSpace c
  · rfl
  · exfalso
    unfold pyIsSpace at hsp
    simp only [Bool.or_eq_true, decide_eq_true_eq] at hsp
    rcases hsp with ((((h1 | h1) | h1) | h1) | h1) | h1 <;> (subst h1; simp at h)

lemma natDigits_no_char (n : Nat) {d : Char} (hd : d.isDigit = false) : d ∉ natDigits n :=
  fun hm => by have h := natDigits_all_digit n d hm; simp [h] at hd

lemma pyStrip_digits {l : List Char} (hd : ∀ c ∈ l, c.isDigit = true) : pyStrip l = l :=
  pyStrip_eq_self (fun x hx => isDigit_not_space (hd x hx))

lemma pyIntCore_digits {l : List Char} (hne : l ≠ []) (hd : ∀ c ∈ l, c.isDigit = true) :
    pyIntCore l = some ((digitsToNat l : Nat) : Int) := by
  cases l with
  | nil => exact absurd rfl hne
  | cons c cs =>
    have hc := hd c (List.mem_cons_self c cs)
    rw [pyIntCore, if_neg (isDigit_ne hc (by decide)), if_neg (isDigit_ne hc (by decide)),
      if_pos (List.all_eq_true.mpr (fun x hx => hd x hx))]

lemma pyInt?_digits {l : List Char} (hne : l ≠ []) (hd : ∀ c ∈ l, c.isDigit = true) :
    pyInt? l = some ((digitsToNat l : Nat) : Int) := by
  unfold pyInt?
  rw [pyStrip_digits hd]
  exact pyIntCore_digits hne hd

lemma pyInt?_natDigits (n : Nat) : pyInt? (natDigits n) = some (n : Int) := by
  rw [pyInt?_digits (natDigits_ne_nil n) (natDigits_all_digit n), digitsToNat_natDigits]

lemma pyInt?_nonneg {l : List Char} {i : Int} (hnm : '-' ∉ l) (h : pyInt? l = some i) :
    0 ≤ i := by
  unfold pyInt? at h
  rcases hst : pyStrip l with _ | ⟨c, rest⟩ <;> rw [hst] at h
  · simp [pyIntCore] at h
  · have hcm : c ∈ l := mem_pyStrip (by rw [hst]; exact List.mem_cons_self c rest)
    have hcne : ¬ (c = '-') := fun he => hnm (he ▸ hcm)
    rw [pyIntCore] at h
    split_ifs at h <;>
      first
        | (exact absurd (by assumption) hcne)
        | (injection h with h'; exact h' ▸ Int.natCast_nonneg _)

lemma filter_space_eq_self {l : List Char} (h : ∀ x ∈ l, x ≠ ' ') :
    l.filter (fun ch => ch != ' ') = l :=
  List.filter_eq_self.mpr (fun a ha => by simp [h a ha])

lemma map_sep_eq_self {l : List Char} (h : ∀ x ∈ l, x ≠ '.') :
    l.map sepRepl = l := by
  induction l with
  | nil => rfl
  | cons c cs ih =>
    rw [List.map_cons, show sepRepl c = c from if_neg (h c (List.mem_cons_self c cs)),
      ih (fun x hx => h x (List.mem_cons_of_mem c hx))]

lemma singleRefStr_chars {c v : Nat} :
    ∀ x ∈ singleRefStr c v, x.isDigit = true ∨ x = ':' := by
  intro x hx
  simp only [singleRefStr] at hx
  rcases List.mem_append.mp hx with hx | hx
  · exact .inl (natDigits_all_digit c x hx)
  · rcases List.mem_cons.mp hx with hx | hx
    · exact .inr hx
    · exact .inl (natDigits_all_digit v x hx)

lemma singleRefStr_no_space {c v : Nat} : ∀ x ∈ singleRefStr c v, x ≠ ' ' := by
  intro x hx
  rcases singleRefStr_chars x hx with h | h
  · exact isDigit_ne h (by decide)
  · subst h; decide

lemma singleRefStr_no_dot {c v : Nat} : ∀ x ∈ singleRefStr c v, x ≠ '.' := by
  intro x hx
  rcases singleRefStr_chars x hx with h | h
  · exact isDigit_ne h (by decide)
  · subst h; decide

lemma singleRefStr_no_dash {c v : Nat} : '-' ∉ singleRefStr c v := by
  intro hm
  rcases singleRefStr_chars '-' hm with h | h
  · simp at h
  · simp at h

lemma singleRefStr_ne_nil {c v : Nat} : singleRefStr c v ≠ [] :=
  List.append_ne_nil_of_left_ne_nil (natDigits_ne_nil c) _

lemma splitFirst_colon_singleRefStr {c v : Nat} :
    splitFirst ':' (singleRefStr c v) = some (natDigits c, natDigits v) :=
  splitFirst_append _ (natDigits_no_char c (by decide))

lemma parseNormalized_singleRefStr (c v : Nat) :
    parseNormalized (singleRefStr c v) = .ok ((c : Int), (v : Int), (v : Int)) := by
  simp only [parseNormalized, splitFirst_not_mem (singleRefStr_no_dash (c := c) (v := v)),
    splitFirst_colon_singleRefStr, pyInt?_natDigits]

lemma parseReference_skips_normalization {l : List Char} (hs : ∀ x ∈ l, x ≠ ' ')
    (hd : ∀ x ∈ l, x ≠ '.') (hne : l ≠ []) :
    parseReference l = parseNormalized l := by
  simp only [parseReference, filter_space_eq_self hs]
  rw [if_neg hne, map_sep_eq_self hd]

lemma rangeRefStr_chars {c v1 v2 : Nat} :
    ∀ x ∈ rangeRefStr c v1 v2, x.isDigit = true ∨ x = ':' ∨ x = '-' := by
  intro x hx
  simp only [rangeRefStr] at hx
  rcases List.mem_append.mp hx with hx | hx
  · rcases singleRefStr_chars x hx with h | h
    · exact .inl h
    · exact .inr (.inl h)
  · rcases List.mem_cons.mp hx with hx | hx
    · exact .inr (.inr hx)
    · exact .inl (natDigits_all_digit v2 x hx)

lemma rangeRefStr2_chars {c v1 c2 v2 : Nat} :
    ∀ x ∈ rangeRefStr2 c v1 c2 v2, x.isDigit = true ∨ x = ':' ∨ x = '-' := by
  intro x hx
  simp only [rangeRefStr2] at hx
  rcases List.mem_append.mp hx with hx | hx
  · rcases singleRefStr_chars x hx with h | h
    · exact .inl h
    · exact .inr (.inl h)
  · rcases List.mem_cons.mp hx with hx | hx
    · exact .inr (.inr hx)
    · rcases singleRefStr_chars x hx with h | h
      · exact .inl h
      · exact .inr (.inl h)

lemma refChar_no_space {x : Char} (h : x.isDigit = true ∨ x = ':' ∨ x = '-') :
    x ≠ ' ' := by
  rcases h with h | h | h
  · exact isDigit_ne h (by decide)
  · subst h; decide
  · subst h; decide

lemma refChar_no_dot {x : Char} (h : x.isDigit = true ∨ x = ':' ∨ x = '-') :
    x ≠ '.' := by
  rcases h with h | h | h
  · exact isDigit_ne h (by decide)
  · subst h; decide
  · subst h; decide

lemma parseNormalized_rangeRefStr (c v1 v2 : Nat) :
    parseNormalized (rangeRefStr c v1 v2) =
      if (v2 : Int) < (v1 : Int) then .error .rangeError
      else .ok ((c : Int), (v1 : Int), (v2 : Int)) := by
  have h1 : splitFirst '-' (rangeRefStr c v1 v2) = some (singleRefStr c v1, natDigits v2) :=
    splitFirst_append _ singleRefStr_no_dash
  have h2 : splitFirst ':' (natDigits v2) = none :=
    splitFirst_not_mem (natDigits_no_char v2 (by decide))
  simp only [parseNormalized, parseRight, h1, h2, splitFirst_colon_singleRefStr,
    pyInt?_natDigits, Option.getD_none]
  rw [if_neg (by simp)]

lemma parseNormalized_rangeRefStr2 (c v1 c2 v2 : Nat) :
    parseNormalized (rangeRefStr2 c v1 c2 v2) =
      if (c2 : Int) ≠ (c : Int) then .error .rangeError
      else if (v2 : Int) < (v1 : Int) then .error .rangeError
      else .ok ((c : Int), (v1 : Int), (v2 : Int)) := by
  have h1 : splitFirst '-' (rangeRefStr2 c v1 c2 v2) =
      some (singleRefStr c v1, singleRefStr c2 v2) :=
    splitFirst_append _ singleRefStr_no_dash
  simp only [parseNormalized, parseRight, h1, splitFirst_colon_singleRefStr,
    pyInt?_natDigits, Option.getD_some]

lemma parseReference_rangeRefStr (c v1 v2 : Nat) :
    parseReference (rangeRefStr c v1 v2) =
      if (v2 : Int) < (v1 : Int) then .error .rangeError
      else .ok ((c : Int), (v1 : Int), (v2 : Int)) := by
  rw [parseReference_skips_normalization
    (fun x hx => refChar_no_space (rangeRefStr_chars x hx))
    (fun x hx => refChar_no_dot (rangeRefStr_chars x hx))
    (List.append_ne_nil_of_left_ne_nil singleRefStr_ne_nil _)]
  exact parseNormalized_rangeRefStr c v1 v2

lemma parseReference_rangeRefStr2 (c v1 c2 v2 : Nat) :
    parseReference (rangeRefStr2 c v1 c2 v2) =
      if (c2 : Int) ≠ (c : Int) then .error .rangeError
      else if (v2 : Int) < (v1 : Int) then .error .rangeError
      else .ok ((c : Int), (v1 : Int), (v2 : Int)) := by
  rw [parseReference_skips_normalization
    (fun x hx => refChar_no_space (rangeRefStr2_chars x hx))
    (fun x hx => refChar_no_dot (rangeRefStr2_chars x hx))
    (List.append_ne_nil_of_left_ne_nil singleRefStr_ne_nil _)]
  exact parseNormalized_rangeRefStr2 c v1 c2 v2

lemma sepRepl_idem (x : Char) : sepRepl (sepRepl x) = sepRepl x := by
  unfold sepRepl
  by_cases hx : x = '.'
  · subst hx; decide
  · rw [if_neg hx, if_neg hx]

lemma map_sepRepl_idem (l : List Char) : (l.map sepRepl).map sepRepl = l.map sepRepl := by
  rw [List.map_map]
  exact List.map_congr_left (fun a _ => sepRepl_idem a)

lemma filter_map_comm (s : List Char) :
    (s.map sepRepl).filter (fun ch => ch != ' ') =
      (s.filter (fun ch => ch != ' ')).map sepRepl := by
  induction s with
  | nil => rfl
  | cons c cs ih =>
    simp only [List.map_cons, List.filter_cons]
    have hb : (sepRepl c != ' ') = (c != ' ') := by
      unfold sepRepl
      by_cases hc : c = '.'
      · subst hc; decide
      · rw [if_neg hc]
    rw [hb]
    cases hsp : (c != ' ') <;> simp [ih]

lemma parseReference_normalized (ref : List Char) :
    parseReference ref =
      if ref.filter (fun ch => ch != ' ') = [] then .error .formatError
      else parseNormalized (normalizeRef ref) := rfl

lemma parseNormalized_ok_nonneg {s : List Char} {c sv ev : Int}
    (h : parseNormalized s = .ok (c, sv, ev)) : 0 ≤ c ∧ 0 ≤ sv ∧ sv ≤ ev := by
  unfold parseNormalized parseRight at h
  rcases hsp : splitFirst '-' s with _ | ⟨left, right⟩ <;> rw [hsp] at h <;> (try dsimp only at h)
  · rcases hc2 : splitFirst ':' s with _ | ⟨cs, vs⟩ <;> rw [hc2] at h <;> (try dsimp only at h)
    · exact absurd h (by simp)
    · rcases hin1 : pyInt? cs with _ | i1 <;> rw [hin1] at h <;> (try dsimp only at h)
      · exact absurd h (by simp)
      · rcases hin2 : pyInt? vs with _ | i2 <;> rw [hin2] at h <;> (try dsimp only at h)
        · exact absurd h (by simp)
        · injection h with h'
          simp only [Prod.mk.injEq] at h'
          obtain ⟨rfl, rfl, rfl⟩ := h'
          have hnd : '-' ∉ s := splitFirst_eq_none.mp hsp
          obtain ⟨hseq, _⟩ := splitFirst_eq_some hc2
          subst hseq
          exact ⟨pyInt?_nonneg (fun hm => hnd (List.mem_append.mpr (.inl hm))) hin1,
            pyInt?_nonneg
              (fun hm => hnd (List.mem_append.mpr (.inr (List.mem_cons_of_mem _ hm)))) hin2,
            le_refl _⟩
  · obtain ⟨hseq, hnleft⟩ := splitFirst_eq_some hsp
    rcases hrc : splitFirst ':' right with _ | ⟨rc, rv⟩ <;> rw [hrc] at h <;> (try dsimp only at h)
    · rcases hri : pyInt? right with _ | rvs <;> rw [hri] at h <;> (try dsimp only at h)
      · exact absurd h (by simp)
      · rcases hlc : splitFirst ':' left with _ | ⟨lc, lv⟩ <;> rw [hlc] at h <;> (try dsimp only at h)
        · exact absurd h (by simp)
        · rcases hil : pyInt? lc with _ | lch <;> rw [hil] at h <;> (try dsimp only at h)
          · exact absurd h (by simp)
          · rcases hiv : pyInt? lv with _ | lvs <;> rw [hiv] at h <;> (try dsimp only at h)
            · exact absurd h (by simp)
            · simp only [Option.getD_none] at h
              rw [if_neg (by simp)] at h
              by_cases hlt : rvs < lvs
              · rw [if_pos hlt] at h
                exact absurd h (by simp)
              · rw [if_neg hlt] at h
                injection h with h'
                simp only [Prod.mk.injEq] at h'
                obtain ⟨rfl, rfl, rfl⟩ := h'
                obtain ⟨hleq, _⟩ := splitFirst_eq_some hlc
                have hnlc : '-' ∉ lc :=
                  fun hm => hnleft (hleq ▸ List.mem_append.mpr (.inl hm))
                have hnlv : '-' ∉ lv :=
                  fun hm => hnleft (hleq ▸ List.mem_append.mpr (.inr (List.mem_cons_of_mem _ hm)))
                exact ⟨pyInt?_nonneg hnlc hil, pyInt?_nonneg hnlv hiv, by omega⟩
    · rcases hirc : pyInt? rc with _ | rch <;> rw [hirc] at h <;> (try dsimp only at h)
      · exact absurd h (by simp)
      · rcases hirv : pyInt? rv with _ | rvs <;> rw [hirv] at h <;> (try dsimp only at h)
        · exact absurd h (by simp)
        · rcases hlc : splitFirst ':' left with _ | ⟨lc, lv⟩ <;> rw [hlc] at h <;> (try dsimp only at h)
          · exact absurd h (by simp)
          · rcases hil : pyInt? lc with _ | lch <;> rw [hil] at h <;> (try dsimp only at h)
            · exact absurd h (by simp)
            · rcases hiv : pyInt? lv with _ | lvs <;> rw [hiv] at h <;> (try dsimp only at h)
              · exact absurd h (by simp)
              · simp only [Option.getD_some] at h
                by_cases hne : rch ≠ lch
                · rw [if_pos hne] at h
                  exact absurd h (by simp)
                · rw [if_neg hne] at h
                  by_cases hlt : rvs < lvs
                  · rw [if_pos hlt] at h
                    exact absurd h (by simp)
                  · rw [if_neg hlt] at h
                    injection h with h'
                    simp only [Prod.mk.injEq] at h'
                    obtain ⟨rfl, rfl, rfl⟩ := h'
                    obtain ⟨hleq, _⟩ := splitFirst_eq_some hlc
                    have hnlc : '-' ∉ lc :=
                      fun hm => hnleft (hleq ▸ List.mem_append.mpr (.inl hm))
                    have hnlv : '-' ∉ lv :=
                      fun hm =>
                        hnleft (hleq ▸ List.mem_append.mpr (.inr (List.mem_cons_of_mem _ hm)))
                    exact ⟨pyInt?_nonneg hnlc hil, pyInt?_nonneg hnlv hiv, by omega⟩

lemma parseRight_fmt_noColon {R : List Char} (h2 : splitFirst ':' R = none)
    (h3 : pyInt? R = none) : parseRight R = .error .formatError := by
  unfold parseRight
  rw [h2]
  dsimp only
  rw [h3]

lemma parseRight_fmt_colon {R rc rv : List Char} (h2 : splitFirst ':' R = some (rc, rv))
    (h3 : pyInt? rc = none ∨ pyInt? rv = none) : parseRight R = .error .formatError := by
  unfold parseRight
  rw [h2]
  dsimp only
  rcases h3 with h3 | h3
  · rw [h3]
  · rcases hp : pyInt? rc with _ | i
    · rfl
    · rw [h3]

lemma parseRight_error {R : List Char} {e : ParseError}
    (h : parseRight R = .error e) : e = .formatError := by
  unfold parseRight at h
  rcases hrc : splitFirst ':' R with _ | ⟨rc, rv⟩ <;> rw [hrc] at h <;> (try dsimp only at h)
  · rcases hri : pyInt? R with _ | i <;> rw [hri] at h <;> (try dsimp only at h)
    · injection h with h'
      exact h'.symm
    · exact absurd h (by simp)
  · rcases hp1 : pyInt? rc with _ | i <;> rw [hp1] at h <;> (try dsimp only at h)
    · injection h with h'
      exact h'.symm
    · rcases hp2 : pyInt? rv with _ | j <;> rw [hp2] at h <;> (try dsimp only at h)
      · injection h with h'
        exact h'.symm
      · exact absurd h (by simp)

lemma parseNormalized_fmt_single {s p q : List Char}
    (h1 : splitFirst '-' s = none) (h2 : splitFirst ':' s = some (p, q))
    (h3 : pyInt? p = none ∨ pyInt? q = none) :
    parseNormalized s = .error .formatError := by
  unfold parseNormalized
  rw [h1]
  dsimp only
  rw [h2]
  dsimp only
  rcases h3 with h3 | h3
  · rw [h3]
  · rcases hp : pyInt? p with _ | i
    · rfl
    · rw [h3]

lemma parseNormalized_fmt_right {s L R : List Char}
    (h1 : splitFirst '-' s = some (L, R))
    (hr : parseRight R = .error .formatError) :
    parseNormalized s = .error .formatError := by
  unfold parseNormalized
  rw [h1]
  dsimp only
  rw [hr]

lemma parseNormalized_fmt_left {s L R lc lv : List Char}
    (h1 : splitFirst '-' s = some (L, R)) (h2 : splitFirst ':' L = some (lc, lv))
    (h3 : pyInt? lc = none ∨ pyInt? lv = none) :
    parseNormalized s = .error .formatError := by
  unfold parseNormalized
  rw [h1]
  dsimp only
  rcases hrp : parseRight R with e | ⟨o, rVs⟩
  · have he := parseRight_error hrp
    subst he
    rfl
  · dsimp only
    rw [h2]
    dsimp only
    rcases h3 with h3 | h3
    · rw [h3]
    · rcases hp : pyInt? lc with _ | i
      · rfl
      · rw [h3]

lemma collect_error_firstMissing {chapter : Int} {m : Int → Option VerseItem}
    {a t : Bool} :
    ∀ {vs : List Int} {v0 : Int}, firstMissing m vs = some v0 →
      collectSegments chapter m a t vs = .error (.verseNotFound chapter v0) := by
  intro vs
  induction vs with
  | nil => intro v0 h; simp [firstMissing] at h
  | cons v rest ih =>
    intro v0 h
    rw [firstMissing] at h
    rcases hm : m v with _ | item <;> rw [hm] at h
    · injection h with h'
      subst h'
      rw [collectSegments, hm]
    · simp only [collectSegments, hm, ih h]

lemma collect_ok_of_allFound {chapter : Int} {m : Int → Option VerseItem}
    {a t : Bool} :
    ∀ {vs : List Int}, (∀ v ∈ vs, (m v).isSome) →
      ∃ segs, collectSegments chapter m a t vs = .ok segs := by
  intro vs
  induction vs with
  | nil => intro _; exact ⟨[], rfl⟩
  | cons v rest ih =>
    intro h
    rcases hm : m v with _ | item
    · have hv := h v (List.mem_cons_self v rest)
      rw [hm] at hv
      simp at hv
    · obtain ⟨segs, hs⟩ := ih (fun x hx => h x (List.mem_cons_of_mem v hx))
      refine ⟨if !(lineGroup item a t).isEmpty then lineGroup item a t :: segs else segs, ?_⟩
      simp only [collectSegments, hm, hs]

lemma collect_ok_nil {chapter : Int} {m : Int → Option VerseItem} {a t : Bool} :
    ∀ {vs : List Int}, (∀ v ∈ vs, (m v).isSome) →
      (∀ v item, v ∈ vs → m v = some item → lineGroup item a t = []) →
      collectSegments chapter m a t vs = .ok [] := by
  intro vs
  induction vs with
  | nil => intro _ _; rfl
  | cons v rest ih =>
    intro h hg
    rcases hm : m v with _ | item
    · have hv := h v (List.mem_cons_self v rest)
      rw [hm] at hv
      simp at hv
    · have hrest := ih (fun x hx => h x (List.mem_cons_of_mem v hx))
        (fun x it hx hit => hg x it (List.mem_cons_of_mem v hx) hit)
      have hgv : lineGroup item a t = [] := hg v item (List.mem_cons_self v rest) hm
      simp only [collectSegments, hm, hrest, hgv]
      rfl

lemma verseMap_foldl_mem {chapter : Int} :
    ∀ (data : List VerseItem) (m0 : Int → Option VerseItem) (v : Int) (item : VerseItem),
      (data.foldl (verseMapUpd chapter) m0) v = some item → item ∈ data ∨ m0 v = some item := by
  intro data
  induction data with
  | nil => intro m0 v item h; exact .inr h
  | cons x xs ih =>
    intro m0 v item h
    rw [List.foldl_cons] at h
    rcases ih _ v item h with hm | hm
    · exact .inl (List.mem_cons_of_mem x hm)
    · unfold verseMapUpd at hm
      rcases hsura : x.sura with _ | sc <;> rcases hayah : x.ayah with _ | a <;>
        simp only [hsura, hayah] at hm
      all_goals
        first
          | exact .inr hm
          | (by_cases hsc : sc = chapter
             · rw [if_pos hsc] at hm
               change (if v = a then some x else m0 v) = some item at hm
               by_cases hv : v = a
               · rw [if_pos hv] at hm
                 injection hm with h'
                 exact .inl (h' ▸ List.mem_cons_self x xs)
               · rw [if_neg hv] at hm
                 exact .inr hm
             · rw [if_neg hsc] at hm
               exact .inr hm)

lemma verseMap_mem {chapter : Int} {data : List VerseItem} {v : Int} {item : VerseItem}
    (h : verseMap chapter data v = some item) : item ∈ data := by
  rcases verseMap_foldl_mem data _ v item h with hm | hm
  · exact hm
  · simp at hm

lemma findVerseKey_mem {data : List VerseItem} {key : List Char} {item : VerseItem}
    (h : findVerseKey data key = some item) : item ∈ data :=
  List.mem_of_find?_eq_some h

lemma citationSingle_ne_nil (c v : Int) : citationSingle c v ≠ [] := by
  unfold citationSingle
  exact List.append_ne_nil_of_left_ne_nil
    (List.append_ne_nil_of_left_ne_nil (by decide) _) _

lemma citationRange_ne_nil (c s e : Int) : citationRange c s e ≠ [] := by
  unfold citationRange
  exact List.append_ne_nil_of_left_ne_nil
    (List.append_ne_nil_of_left_ne_nil
      (List.append_ne_nil_of_left_ne_nil
        (List.append_ne_nil_of_left_ne_nil (by decide) _) _) _) _

lemma citationSuffix_ne_nil (c s e : Int) : citationSuffix c s e ≠ [] := by
  unfold citationSuffix
  split_ifs
  · exact citationSingle_ne_nil c s
  · exact citationRange_ne_nil c s e

lemma intercalate_single (sep x : List Char) : List.intercalate sep [x] = x := by
  simp [List.intercalate, List.intersperse]

lemma verseRange_self (v : Int) : verseRange v v = [v] := by
  show (List.range (v - v + 1).toNat).map (fun i => v + (i : Int)) = [v]
  rw [show (v - v + 1).toNat = 1 by omega, show List.range 1 = [0] from rfl]
  simp

lemma lineGroup_eq_nil {item : VerseItem} {a t : Bool}
    (ha : a = true → pyStrip (orEmpty item.arabic) = [])
    (ht : t = true → pyStrip (orEmpty item.tamil_pj) = []) :
    lineGroup item a t = [] := by
  have har : (a && !(pyStrip (orEmpty item.arabic)).isEmpty) = false := by
    cases a with
    | false => rfl
    | true => rw [ha rfl]; rfl
  have hat : (t && !(pyStrip (orEmpty item.tamil_pj)).isEmpty) = false := by
    cases t with
    | false => rfl
    | true => rw [ht rfl]; rfl
  simp only [lineGroup, har, hat]
  rfl

lemma getVerseText_found {store : VerseStore} {data : List VerseItem} {c v : Int}
    {a t : Bool} {item : VerseItem} (hc : store c = .ok data)
    (hf : findVerseKey data (needle c v) = some item) :
    getVerseText store c v a t = .ok (lineGroup item a t ++ citationSingle c v) := by
  simp only [getVerseText, hc, hf]
  cases hg : (lineGroup item a t).isEmpty
  · simp [hg]
  · have h0 : lineGroup item a t = [] := List.isEmpty_iff.mp hg
    simp [hg, h0]

lemma buildRangeText_ok {store : VerseStore} {data : List VerseItem} {c s e : Int}
    {a t : Bool} {segs : List (List Char)} (hc : store c = .ok data)
    (hsegs : collectSegments c (verseMap c data) a t (verseRange s e) = .ok segs) :
    buildRangeText store c s e a t =
      .ok (pyStrip (List.intercalate (strL "\n\n") segs) ++ citationRange c s e) := by
  simp only [buildRangeText, hc, hsegs]
  cases hg : (pyStrip (List.intercalate (strL "\n\n") segs)).isEmpty
  · simp [hg]
  · have h0 : pyStrip (List.intercalate (strL "\n\n") segs) = [] := List.isEmpty_iff.mp hg
    simp [hg, h0]

lemma lineGroup_strip (item : VerseItem) (a t : Bool) :
    pyStrip (lineGroup item a t) = lineGroup item a t := by
  simp only [lineGroup]
  exact pyStrip_idem _

lemma onSubmit_shape (store : VerseStore) (clipboardOk : Bool) (st : AppState) :
    (∃ m, onSubmit store clipboardOk st = ({ st with status_var := m }, [.setStatus m])) ∨
    (∃ txt m c sv ev,
      onSubmit store clipboardOk st =
        ({ st with clipboard := txt, last_text_copied := txt, paste_pending := true,
                   status_var := m, hidden := true },
         [.clipboardWrite txt, .setPending true, .setStatus m, .hideWindow]) ∧
      parseReference (pyStrip st.input_var) = .ok (c, sv, ev) ∧
      buildPasteText store c sv ev st.include_arabic st.include_tamil = .ok txt ∧
      (st.include_arabic || st.include_tamil) = true ∧ txt ≠ [] ∧ clipboardOk = true) := by
  simp only [onSubmit]
  cases hp : parseReference (pyStrip st.input_var) with
  | error e => exact .inl ⟨parseErrorStatus e, rfl⟩
  | ok triple =>
    obtain ⟨c, sv, ev⟩ := triple
    dsimp only
    by_cases hopt : (!st.include_arabic && !st.include_tamil) = true
    · rw [if_pos hopt]
      exact .inl ⟨_, rfl⟩
    · rw [if_neg hopt]
      have hor : (st.include_arabic || st.include_tamil) = true := by
        revert hopt
        cases st.include_arabic <;> cases st.include_tamil <;> simp
      cases hb : buildPasteText store c sv ev st.include_arabic st.include_tamil with
      | error err =>
        cases err with
        | chapterNotFound => exact .inl ⟨_, rfl⟩
        | verseNotFound ch vv => exact .inl ⟨_, rfl⟩
        | otherError => exact .inl ⟨_, rfl⟩
      | ok text =>
        dsimp only
        by_cases htxt : text = []
        · rw [if_pos htxt]
          exact .inl ⟨_, rfl⟩
        · rw [if_neg htxt]
          cases hco : clipboardOk
          · rw [if_neg (by simp)]
            exact .inl ⟨_, rfl⟩
          · rw [if_pos rfl]
            exact .inr ⟨text, copiedStatus c sv ev, c, sv, ev, rfl, rfl, hb, hor, htxt, rfl⟩

lemma onFocusOut_no_pending (injectOk : Bool) (st : AppState)
    (h : st.paste_pending = false) : onFocusOut injectOk st = (st, []) := by
  simp [onFocusOut, h]

lemma onFocusOut_clears_pending (injectOk : Bool) (st : AppState) :
    (onFocusOut injectOk st).1.paste_pending = false := by
  cases hp : st.paste_pending
  · rw [onFocusOut_no_pending injectOk st hp]
    exact hp
  · cases injectOk <;> simp [onFocusOut, hp]

lemma step_inject_bound (e : Event) (st : AppState) :
    countInject (step e st).2 + pendBit (step e st).1 ≤
      countArm (step e st).2 + pendBit st := by
  cases e with
  | focusOut injectOk =>
    show countInject (onFocusOut injectOk st).2 + pendBit (onFocusOut injectOk st).1 ≤
      countArm (onFocusOut injectOk st).2 + pendBit st
    cases hp : st.paste_pending
    · rw [onFocusOut_no_pending injectOk st hp]
      simp [countInject, countArm]
    · cases injectOk <;>
        simp [onFocusOut, hp, countInject, countArm, pendBit, List.countP_cons]
  | submit store clipboardOk =>
    show countInject (onSubmit store clipboardOk st).2 +
        pendBit (onSubmit store clipboardOk st).1 ≤
      countArm (onSubmit store clipboardOk st).2 + pendBit st
    rcases onSubmit_shape store clipboardOk st with ⟨m, heq⟩ | ⟨txt, m, c, sv, ev, heq, _⟩ <;>
      rw [heq] <;>
      simp [countInject, countArm, pendBit, List.countP_cons]

lemma run_inject_bound (st : AppState) (events : List Event) :
    countInject (run st events).2 + pendBit (run st events).1 ≤
      countArm (run st events).2 + pendBit st := by
  induction events generalizing st with
  | nil => simp [run, countInject, countArm]
  | cons e es ih =>
    simp only [run]
    have h1 := step_inject_bound e st
    have h2 := ih (step e st).1
    simp only [countInject, countArm, List.countP_append] at h1 h2 ⊢
    omega

/-! ## Claim theorems -/

/-- C4: for all positive integers `c` and `v`, parsing the single reference
string `"c:v"` succeeds and returns the triple `(c, v, v)`. -/
theorem C4_parse_single_roundtrip (c v : Nat) (_hc : 0 < c) (_hv : 0 < v) :
    parseReference (singleRefStr c v) = .ok ((c : Int), (v : Int), (v : Int)) := by
  rw [parseReference_skips_normalization singleRefStr_no_space singleRefStr_no_dot
    singleRefStr_ne_nil]
  exact parseNormalized_singleRefStr c v

/-- Witness for C4 at the concrete reference `"2:255"`. -/
theorem C4_parse_single_roundtrip_witness :
    parseReference (singleRefStr 2 255) = .ok (2, 255, 255) :=
  C4_parse_single_roundtrip 2 255 (by decide) (by decide)

/-- C5 counterexample: the claim says `"c:v1-c2:v2"` parses to
`(c, v1, v2)` whenever `c2 = c`, but with `c2 = c` and `v2 < v1` the code
raises the range error instead: `"1:5-1:3"` is rejected. -/
theorem C5_counterexample :
    parseReference (strL "1:5-1:3") = .error .rangeError ∧
      parseReference (strL "1:5-1:3") ≠ .ok (1, 5, 3) := by
  exact ⟨by decide, by decide⟩

/-- C5 (amended): `"c:v1-v2"` parses to `(c, v1, v2)` when `v2 ≥ v1` and
fails with the range error when `v2 < v1`; `"c:v1-c2:v2"` fails with the
range error when `c2 ≠ c`, and when `c2 = c` behaves like the
chapter-omitted form (ok for `v2 ≥ v1`, range error for `v2 < v1`); a right
side that omits the chapter inherits the left chapter. -/
theorem C5_parse_ranges (c v1 v2 c2 : Nat) (_hc : 0 < c) (_hv1 : 0 < v1)
    (_hv2 : 0 < v2) (_hc2 : 0 < c2) :
    (v1 ≤ v2 →
      parseReference (rangeRefStr c v1 v2) = .ok ((c : Int), (v1 : Int), (v2 : Int))) ∧
    (v2 < v1 → parseReference (rangeRefStr c v1 v2) = .error .rangeError) ∧
    (c2 ≠ c → parseReference (rangeRefStr2 c v1 c2 v2) = .error .rangeError) ∧
    (c2 = c → v1 ≤ v2 →
      parseReference (rangeRefStr2 c v1 c2 v2) = .ok ((c : Int), (v1 : Int), (v2 : Int))) ∧
    (c2 = c → v2 < v1 → parseReference (rangeRefStr2 c v1 c2 v2) = .error .rangeError) := by
  refine ⟨?_, ?_, ?_, ?_, ?_⟩
  · intro h
    rw [parseReference_rangeRefStr, if_neg (by omega)]
  · intro h
    rw [parseReference_rangeRefStr, if_pos (by omega)]
  · intro h
    rw [parseReference_rangeRefStr2, if_pos (by omega)]
  · intro h1 h2
    rw [parseReference_rangeRefStr2, if_neg (by omega), if_neg (by omega)]
  · intro h1 h2
    rw [parseReference_rangeRefStr2, if_neg (by omega), if_pos (by omega)]

/-- Witness for C5 at concrete ranges `"2:3-5"`, `"2:5-3"`, `"2:3-4:5"`,
`"2:3-2:5"` and `"2:5-2:3"`. -/
theorem C5_parse_ranges_witness :
    parseReference (rangeRefStr 2 3 5) = .ok (2, 3, 5) ∧
    parseReference (rangeRefStr 2 5 3) = .error .rangeError ∧
    parseReference (rangeRefStr2 2 3 4 5) = .error .rangeError ∧
    parseReference (rangeRefStr2 2 3 2 5) = .ok (2, 3, 5) ∧
    parseReference (rangeRefStr2 2 5 2 3) = .error .rangeError := by
  have h1 := C5_parse_ranges 2 3 5 4 (by decide) (by decide) (by decide) (by decide)
  have h2 := C5_parse_ranges 2 5 3 2 (by decide) (by decide) (by decide) (by decide)
  have h3 := C5_parse_ranges 2 3 5 2 (by decide) (by decide) (by decide) (by decide)
  exact ⟨h1.1 (by decide), h2.2.1 (by decide), h1.2.2.1 (by decide),
    h3.2.2.2.1 rfl (by decide), h2.2.2.2.2 rfl (by decide)⟩

/-- C6: the two separator characters are interchangeable: parsing any input
with every dot replaced by a colon gives the same result as parsing the
input itself. -/
theorem C6_separator_interchangeable (s : List Char) :
    parseReference (s.map sepRepl) = parseReference s := by
  simp only [parseReference]
  rw [filter_map_comm]
  by_cases ht : s.filter (fun ch => ch != ' ') = []
  · rw [ht]
    simp
  · rw [if_neg (by simp [List.map_eq_nil_iff, ht]), if_neg ht, map_sepRepl_idem]

/-- C1: for every chapter whose data loads and every inclusive verse range,
if some verse of the range is missing (per the lookup the code performs on
the path it takes), composition fails with the verse-not-found error naming
the first missing verse, and a submission reaching that failure performs no
clipboard write and leaves the clipboard, the recorded payload and the
pending flag unchanged. -/
theorem C1_missing_verse_fails (store : VerseStore) (data : List VerseItem)
    (c s e : Int) (a t : Bool) (v0 : Int)
    (hc : store c = .ok data) (hm : firstMissingVerse data c s e = some v0) :
    buildPasteText store c s e a t = .error (.verseNotFound c v0) ∧
    (∀ (st : AppState) (clipboardOk : Bool),
      parseReference (pyStrip st.input_var) = .ok (c, s, e) →
      st.include_arabic = a → st.include_tamil = t →
      (∀ txt, Effect.clipboardWrite txt ∉ (onSubmit store clipboardOk st).2) ∧
      (onSubmit store clipboardOk st).1.clipboard = st.clipboard ∧
      (onSubmit store clipboardOk st).1.last_text_copied = st.last_text_copied ∧
      (onSubmit store clipboardOk st).1.paste_pending = st.paste_pending) := by
  have hfail : buildPasteText store c s e a t = .error (.verseNotFound c v0) := by
    unfold firstMissingVerse at hm
    by_cases hse : s = e
    · rw [if_pos hse] at hm
      by_cases hfind : (findVerseKey data (needle c s)).isNone
      · rw [if_pos hfind] at hm
        injection hm with h'
        subst h'
        simp only [buildPasteText, if_pos hse, getVerseText, hc,
          Option.isNone_iff_eq_none.mp hfind]
      · rw [if_neg hfind] at hm
        simp at hm
    · rw [if_neg hse] at hm
      simp only [buildPasteText, if_neg hse, buildRangeText, hc,
        collect_error_firstMissing hm]
  refine ⟨hfail, ?_⟩
  intro st clipboardOk hparse hA hT
  subst hA
  subst hT
  by_cases hopt : (!st.include_arabic && !st.include_tamil) = true
  · simp only [onSubmit, hparse]
    rw [if_pos hopt]
    refine ⟨fun txt => by simp, ?_, ?_, ?_⟩ <;> trivial
  · simp only [onSubmit, hparse]
    rw [if_neg hopt]
    simp only [hfail]
    refine ⟨fun txt => by simp, ?_, ?_, ?_⟩ <;> trivial

/-- Witness for C1: chapter 1 of `store1` has verses 1 and 3 but not 2, so
composing `1:1-3` fails naming verse 2, and submitting it writes nothing to
the clipboard. -/
theorem C1_missing_verse_fails_witness :
    buildPasteText store1 1 1 3 true true = .error (.verseNotFound 1 2) ∧
    Effect.clipboardWrite (strL "x") ∉ (onSubmit store1 true st13).2 ∧
    (onSubmit store1 true st13).1.clipboard = st13.clipboard ∧
    (onSubmit store1 true st13).1.paste_pending = st13.paste_pending := by
  have h := C1_missing_verse_fails store1 chapterOneData 1 1 3 true true 2 rfl (by rfl)
  have h2 := h.2 st13 true (by rfl) rfl rfl
  exact ⟨h.1, h2.1 (strL "x"), h2.2.1, h2.2.2.2⟩

/-- C2: when the chapter loads and every verse of the reference is found,
composition succeeds with a result that ends exactly with the citation
suffix for the reference and is never empty; when additionally every
included text field strips to empty, the result is exactly the suffix. -/
theorem C2_suffix_always (store : VerseStore) (data : List VerseItem)
    (c s e : Int) (a t : Bool)
    (hc : store c = .ok data) (hall : versesAllFound data c s e = true) :
    (∃ body, buildPasteText store c s e a t = .ok (body ++ citationSuffix c s e) ∧
      body ++ citationSuffix c s e ≠ []) ∧
    ((∀ item ∈ data, (a = true → pyStrip (orEmpty item.arabic) = []) ∧
        (t = true → pyStrip (orEmpty item.tamil_pj) = [])) →
      buildPasteText store c s e a t = .ok (citationSuffix c s e)) := by
  unfold versesAllFound at hall
  by_cases hse : s = e
  · subst hse
    rw [if_pos rfl] at hall
    obtain ⟨item, hitem⟩ := Option.isSome_iff_exists.mp hall
    have hbp : buildPasteText store c s s a t = getVerseText store c s a t := if_pos rfl
    have hgv := getVerseText_found (a := a) (t := t) hc hitem
    have hsuf : citationSuffix c s s = citationSingle c s := if_pos rfl
    constructor
    · exact ⟨lineGroup item a t, by rw [hbp, hgv, hsuf],
        by rw [hsuf]; exact List.append_ne_nil_of_right_ne_nil _ (citationSingle_ne_nil c s)⟩
    · intro hempty
      have hnil : lineGroup item a t = [] :=
        lineGroup_eq_nil (hempty item (findVerseKey_mem hitem)).1
          (hempty item (findVerseKey_mem hitem)).2
      rw [hbp, hgv, hnil, hsuf, List.nil_append]
  · rw [if_neg hse] at hall
    have hallmem : ∀ v ∈ verseRange s e, (verseMap c data v).isSome :=
      fun v hv => List.all_eq_true.mp hall v hv
    have hbp : buildPasteText store c s e a t = buildRangeText store c s e a t := if_neg hse
    have hsuf : citationSuffix c s e = citationRange c s e := if_neg hse
    obtain ⟨segs, hsegs⟩ := collect_ok_of_allFound hallmem
    constructor
    · exact ⟨pyStrip (List.intercalate (strL "\n\n") segs),
        by rw [hbp, buildRangeText_ok hc hsegs, hsuf],
        by rw [hsuf]; exact List.append_ne_nil_of_right_ne_nil _ (citationRange_ne_nil c s e)⟩
    · intro hempty
      have hnil : collectSegments c (verseMap c data) a t (verseRange s e) = .ok [] :=
        collect_ok_nil hallmem (fun v item _ hvi =>
          lineGroup_eq_nil (hempty item (verseMap_mem hvi)).1
            (hempty item (verseMap_mem hvi)).2)
      rw [hbp, buildRangeText_ok hc hnil, hsuf]
      rfl

/-- Witness for C2: composing `1:1` from `store1` (all fields non-empty)
ends with the single-verse suffix, and composing `1:1` from a store whose
only record has empty text fields yields exactly the suffix. -/
theorem C2_suffix_always_witness :
    (∃ body, buildPasteText store1 1 1 1 true true = .ok (body ++ citationSuffix 1 1 1) ∧
      body ++ citationSuffix 1 1 1 ≠ []) ∧
    buildPasteText emptyTextStore 1 1 1 true true = .ok (citationSuffix 1 1 1) := by
  have h1 := C2_suffix_always store1 chapterOneData 1 1 1 true true rfl (by rfl)
  have h2 := C2_suffix_always emptyTextStore [emptyTextItem] 1 1 1 true true rfl (by rfl)
  refine ⟨h1.1, h2.2 ?_⟩
  intro item hitem
  rcases List.mem_singleton.mp hitem with rfl
  exact ⟨fun _ => rfl, fun _ => rfl⟩

/-- C7 counterexample: the two composer paths use different lookups (first
record matching `verse_key` versus last record matching `sura`/`ayah`), so
on `mismatchStore` the single path succeeds while the generic range
algorithm on the degenerate range `[1, 1]` fails — a difference beyond the
suffix label. -/
theorem C7_counterexample :
    buildPasteText mismatchStore 1 1 1 true true = .ok (strL "A" ++ citationSingle 1 1) ∧
    buildRangeText mismatchStore 1 1 1 true true = .error (.verseNotFound 1 1) := by
  exact ⟨by decide, by decide⟩

/-- C7 (amended): composing the single reference `(c, v, v)` agrees with
the generic range algorithm on the degenerate range `[v, v]` up to the
suffix label format, provided the two lookup methods (first record whose
`verse_key` matches, last record whose `sura`/`ayah` match) select the same
record for `v`; on data where they disagree the results can differ beyond
the suffix. -/
theorem C7_single_vs_range (store : VerseStore) (c v : Int) (a t : Bool)
    (hagree : ∀ data, store c = .ok data →
      findVerseKey data (needle c v) = verseMap c data v) :
    (∃ err, buildPasteText store c v v a t = .error err ∧
      buildRangeText store c v v a t = .error err) ∨
    (∃ body, buildPasteText store c v v a t = .ok (body ++ citationSingle c v) ∧
      buildRangeText store c v v a t = .ok (body ++ citationRange c v v)) := by
  have hbp : buildPasteText store c v v a t = getVerseText store c v a t := if_pos rfl
  rcases hst : store c with _ | _ | data
  · left
    exact ⟨.chapterNotFound, by rw [hbp]; simp [getVerseText, hst],
      by simp [buildRangeText, hst]⟩
  · left
    exact ⟨.otherError, by rw [hbp]; simp [getVerseText, hst],
      by simp [buildRangeText, hst]⟩
  · have hag := hagree data hst
    rcases hfk : findVerseKey data (needle c v) with _ | item
    · left
      have hm : verseMap c data v = none := by rw [← hag, hfk]
      refine ⟨.verseNotFound c v, ?_, ?_⟩
      · rw [hbp]; simp [getVerseText, hst, hfk]
      · simp [buildRangeText, hst, verseRange_self, collectSegments, hm]
    · right
      have hm : verseMap c data v = some item := by rw [← hag, hfk]
      have hsegs : collectSegments c (verseMap c data) a t (verseRange v v) =
          .ok (if !(lineGroup item a t).isEmpty then [lineGroup item a t] else []) := by
        rw [verseRange_self]
        simp [collectSegments, hm]
      have hgv := getVerseText_found (a := a) (t := t) hst hfk
      cases hemp : (lineGroup item a t).isEmpty
      case false =>
        rw [hemp] at hsegs
        simp only [Bool.not_false, if_pos] at hsegs
        refine ⟨lineGroup item a t, by rw [hbp, hgv], ?_⟩
        rw [buildRangeText_ok hst hsegs, intercalate_single, lineGroup_strip]
      case true =>
        have hnil : lineGroup item a t = [] := List.isEmpty_iff.mp hemp
        rw [hemp] at hsegs
        simp only [Bool.not_true, if_neg] at hsegs
        refine ⟨[], by rw [hbp, hgv, hnil], ?_⟩
        rw [buildRangeText_ok hst (by simpa using hsegs)]
        rfl

/-- Witness for C7 on consistent data: on `store1` the two paths agree for
`1:1` up to the suffix label. -/
theorem C7_single_vs_range_witness :
    (∃ err, buildPasteText store1 1 1 1 true true = .error err ∧
      buildRangeText store1 1 1 1 true true = .error err) ∨
    (∃ body, buildPasteText store1 1 1 1 true true = .ok (body ++ citationSingle 1 1) ∧
      buildRangeText store1 1 1 1 true true = .ok (body ++ citationRange 1 1 1)) :=
  C7_single_vs_range store1 1 1 true true (by
    intro data h
    simp only [store1, if_pos] at h
    injection h with h'
    subst h'
    decide)

/-- C8: a focus-lost notification while `paste_pending` is false is a
complete no-op (no injection call, state unchanged); after any delivery
attempt `paste_pending` is false; and over every event sequence the number
of injection calls never exceeds the number of arming transitions plus the
initially pending one, so each arming causes at most one injection. -/
theorem C8_focus_out_gating :
    (∀ (injectOk : Bool) (st : AppState), st.paste_pending = false →
      onFocusOut injectOk st = (st, [])) ∧
    (∀ (injectOk : Bool) (st : AppState),
      (onFocusOut injectOk st).1.paste_pending = false) ∧
    (∀ (st : AppState) (events : List Event),
      countInject (run st events).2 + pendBit (run st events).1 ≤
        countArm (run st events).2 + pendBit st) :=
  ⟨onFocusOut_no_pending, onFocusOut_clears_pending, run_inject_bound⟩

/-- Witness for C8: a focus-out in the idle state is a no-op; after a
submit-then-focus-out run from the idle state the injection count is
bounded by the arming count. -/
theorem C8_focus_out_gating_witness :
    onFocusOut true st13 = (st13, []) ∧
    (onFocusOut true (onSubmit store1 true st0).1).1.paste_pending = false ∧
    countInject (run st0 [Event.submit store1 true, Event.focusOut true]).2 +
        pendBit (run st0 [Event.submit store1 true, Event.focusOut true]).1 ≤
      countArm (run st0 [Event.submit store1 true, Event.focusOut true]).2 + pendBit st0 :=
  ⟨C8_focus_out_gating.1 true st13 rfl,
   C8_focus_out_gating.2.1 true (onSubmit store1 true st0).1,
   C8_focus_out_gating.2.2 st0 [Event.submit store1 true, Event.focusOut true]⟩

/-- C9: in every arming submission (pending goes from false to true) the
side effects are exactly the clipboard write of the composed payload, then
setting the pending flag, then the status update, then hiding the window —
in that order, so the window is never hidden before the clipboard write
completes; the recorded payload and clipboard equal the composed text. -/
theorem C9_arming_effect_order (store : VerseStore) (clipboardOk : Bool)
    (st : AppState) (hidle : st.paste_pending = false)
    (harmed : (onSubmit store clipboardOk st).1.paste_pending = true) :
    ∃ txt m, (onSubmit store clipboardOk st).2 =
        [.clipboardWrite txt, .setPending true, .setStatus m, .hideWindow] ∧
      (onSubmit store clipboardOk st).1.clipboard = txt ∧
      (onSubmit store clipboardOk st).1.last_text_copied = txt ∧
      (onSubmit store clipboardOk st).1.hidden = true ∧
      (∃ c sv ev, parseReference (pyStrip st.input_var) = .ok (c, sv, ev) ∧
        buildPasteText store c sv ev st.include_arabic st.include_tamil = .ok txt) := by
  rcases onSubmit_shape store clipboardOk st with ⟨m, heq⟩ |
    ⟨txt, m, c, sv, ev, heq, hp, hb, _, _, _⟩
  · rw [heq] at harmed
    rw [hidle] at harmed
    exact absurd harmed (by simp)
  · rw [heq]
    exact ⟨txt, m, rfl, rfl, rfl, rfl, c, sv, ev, hp, hb⟩

/-- Witness for C9: submitting `"1:1"` from the idle state with `store1`
produces exactly the ordered effect list. -/
theorem C9_arming_effect_order_witness :
    ∃ txt m, (onSubmit store1 true st0).2 =
        [.clipboardWrite txt, .setPending true, .setStatus m, .hideWindow] ∧
      (onSubmit store1 true st0).1.clipboard = txt ∧
      (onSubmit store1 true st0).1.last_text_copied = txt ∧
      (onSubmit store1 true st0).1.hidden = true ∧
      (∃ c sv ev, parseReference (pyStrip st0.input_var) = .ok (c, sv, ev) ∧
        buildPasteText store1 c sv ev st0.include_arabic st0.include_tamil = .ok txt) :=
  C9_arming_effect_order store1 true st0 rfl rfl

/-- C10: a submission that fails anywhere before the clipboard write
succeeds (parse failure, both options off, any composition error, empty
text, or clipboard failure) leaves `paste_pending` and the recorded
last-copied payload unchanged; in particular a previously armed session
stays armed with its old payload. -/
theorem C10_failed_submit_preserves (store : VerseStore) (clipboardOk : Bool)
    (st : AppState) (hfail : submitSucceeds store clipboardOk st = false) :
    (onSubmit store clipboardOk st).1.paste_pending = st.paste_pending ∧
    (onSubmit store clipboardOk st).1.last_text_copied = st.last_text_copied := by
  rcases onSubmit_shape store clipboardOk st with ⟨m, heq⟩ |
    ⟨txt, m, c, sv, ev, heq, hp, hb, hor, htxt, hco⟩
  · rw [heq]
    exact ⟨rfl, rfl⟩
  · exfalso
    unfold submitSucceeds at hfail
    rw [hp] at hfail
    dsimp only at hfail
    rw [hb] at hfail
    dsimp only at hfail
    rw [hor, hco] at hfail
    have hie : txt.isEmpty = false := by
      cases txt with
      | nil => exact absurd rfl htxt
      | cons x xs => rfl
    rw [hie] at hfail
    simp at hfail

/-- Witness for C10: submitting the unparsable input of `stArmedBad` leaves
the armed session and its old payload in place. -/
theorem C10_failed_submit_preserves_witness :
    (onSubmit store1 true stArmedBad).1.paste_pending = stArmedBad.paste_pending ∧
    (onSubmit store1 true stArmedBad).1.last_text_copied = stArmedBad.last_text_copied :=
  C10_failed_submit_preserves store1 true stArmedBad (by rfl)

/-- C3 counterexample: the claim says every accepted chapter and verse is
at least 1, but the code performs no positivity check: `"0:0"` is accepted
and returns `(0, 0, 0)`. -/
theorem C3_counterexample :
    parseReference (strL "0:0") = .ok (0, 0, 0) ∧ ¬ ((1 : Int) ≤ 0) := by
  exact ⟨by decide, by decide⟩

/-- C3 (amended): the parser performs no positivity check, so accepted
inputs only guarantee chapter ≥ 0 and 0 ≤ startVerse ≤ endVerse; any input
whose chapter or verse token is non-numeric (fails the `int()` conversion)
is rejected with the format error.  The token positions are phrased through
the splits the code itself performs on the normalised input. -/
theorem C3_parse_values :
    (∀ (ref : List Char) (c sv ev : Int), parseReference ref = .ok (c, sv, ev) →
      0 ≤ c ∧ 0 ≤ sv ∧ sv ≤ ev) ∧
    (∀ ref p q : List Char, splitFirst '-' (normalizeRef ref) = none →
      splitFirst ':' (normalizeRef ref) = some (p, q) →
      pyInt? p = none ∨ pyInt? q = none →
      parseReference ref = .error .formatError) ∧
    (∀ ref L R : List Char, splitFirst '-' (normalizeRef ref) = some (L, R) →
      splitFirst ':' R = none → pyInt? R = none →
      parseReference ref = .error .formatError) ∧
    (∀ ref L R rc rv : List Char, splitFirst '-' (normalizeRef ref) = some (L, R) →
      splitFirst ':' R = some (rc, rv) → pyInt? rc = none ∨ pyInt? rv = none →
      parseReference ref = .error .formatError) ∧
    (∀ ref L R lc lv : List Char, splitFirst '-' (normalizeRef ref) = some (L, R) →
      splitFirst ':' L = some (lc, lv) → pyInt? lc = none ∨ pyInt? lv = none →
      parseReference ref = .error .formatError) := by
  have hnil : ∀ ref : List Char, ref.filter (fun ch => ch != ' ') = [] →
      parseReference ref = .error .formatError := by
    intro ref h
    rw [parseReference_normalized, if_pos h]
  refine ⟨?_, ?_, ?_, ?_, ?_⟩
  · intro ref c sv ev h
    rw [parseReference_normalized] at h
    by_cases hn : ref.filter (fun ch => ch != ' ') = []
    · rw [if_pos hn] at h
      exact absurd h (by simp)
    · rw [if_neg hn] at h
      exact parseNormalized_ok_nonneg h
  · intro ref p q h1 h2 h3
    by_cases hn : ref.filter (fun ch => ch != ' ') = []
    · exact hnil ref hn
    · rw [parseReference_normalized, if_neg hn]
      exact parseNormalized_fmt_single h1 h2 h3
  · intro ref L R h1 h2 h3
    by_cases hn : ref.filter (fun ch => ch != ' ') = []
    · exact hnil ref hn
    · rw [parseReference_normalized, if_neg hn]
      exact parseNormalized_fmt_right h1 (parseRight_fmt_noColon h2 h3)
  · intro ref L R rc rv h1 h2 h3
    by_cases hn : ref.filter (fun ch => ch != ' ') = []
    · exact hnil ref hn
    · rw [parseReference_normalized, if_neg hn]
      exact parseNormalized_fmt_right h1 (parseRight_fmt_colon h2 h3)
  · intro ref L R lc lv h1 h2 h3
    by_cases hn : ref.filter (fun ch => ch != ' ') = []
    · exact hnil ref hn
    · rw [parseReference_normalized, if_neg hn]
      exact parseNormalized_fmt_left h1 h2 h3

/-- Witness for C3 at concrete inputs: `"2:3"` is accepted with nonnegative
ordered values; `"a:b"`, `"1:2-x"`, `"1:2-3:y"` and `"x:2-3"` each have a
non-numeric token and are rejected with the format error. -/
theorem C3_parse_values_witness :
    ((0 : Int) ≤ 2 ∧ (0 : Int) ≤ 3 ∧ (3 : Int) ≤ 3) ∧
    parseReference (strL "a:b") = .error .formatError ∧
    parseReference (strL "1:2-x") = .error .formatError ∧
    parseReference (strL "1:2-3:y") = .error .formatError ∧
    parseReference (strL "x:2-3") = .error .formatError := by
  refine ⟨C3_parse_values.1 (strL "2:3") 2 3 3 (by rfl),
    C3_parse_values.2.1 (strL "a:b") (strL "a") (strL "b") (by rfl) (by rfl)
      (.inl (by rfl)),
    C3_parse_values.2.2.1 (strL "1:2-x") (strL "1:2") (strL "x") (by rfl) (by rfl)
      (by rfl),
    C3_parse_values.2.2.2.1 (strL "1:2-3:y") (strL "1:2") (strL "3:y") (strL "3")
      (strL "y") (by rfl) (by rfl) (.inr (by rfl)),
    C3_parse_values.2.2.2.2 (strL "x:2-3") (strL "x:2") (strL "3") (strL "x")
      (strL "2") (by rfl) (by rfl) (.inl (by rfl))⟩


end PyGetVerse
